import Mathlib

/-!
Verification of the XanaAI query-orchestration backend (NestJS/TypeScript)
against its natural-language specification.

The TypeScript sources are shallowly embedded: JavaScript numbers are
modelled as `Rat` (only structural and ordering properties are at stake,
never floating-point rounding), JavaScript values that can be `undefined`
are modelled as `Option`, JSON values as the inductive `Js`, and functions
that can throw are modelled as `Option`-returning functions.
-/

/-- JSON value, as handled by the backend services (JavaScript objects are
association lists in insertion order, as produced by object literals). -/
inductive Js where
  | null : Js
  | bool : Bool → Js
  | num : Rat → Js
  | str : String → Js
  | arr : List Js → Js
  | obj : List (String × Js) → Js

/-- Property lookup on a JavaScript object: first binding of the key
(JS objects have unique keys; our `setKey` preserves that). -/
def jsGet (o : List (String × Js)) (k : String) : Option Js :=
  (o.find? (fun p => p.1 == k)).map (fun p => p.2)

/-- One step of JavaScript object-spread: an existing key keeps its position
but is overwritten, a new key is appended at the end. -/
def setKey : List (String × Js) → String → Js → List (String × Js)
  | [], k, v => [(k, v)]
  | p :: rest, k, v => if p.1 == k then (k, v) :: rest else p :: setKey rest k v

/-- `{ ...base, ...extra }`: every binding of `extra` overwrites the same key
in `base` (later bindings win, as in JavaScript spread). -/
def spreadObj (base extra : List (String × Js)) : List (String × Js) :=
  extra.foldl (fun acc p => setKey acc p.1 p.2) base

/-- JavaScript falsiness of a value (`null`, `false`, `0`, `""`). -/
def jsFalsy : Js → Bool
  | .null => true
  | .bool b => !b
  | .num q => q == 0
  | .str s => s == ""
  | .arr _ => false
  | .obj _ => false

/-- JavaScript `a || b` where `a` may be `undefined` (`none`). -/
def jsOr (a : Option Js) (b : Js) : Js :=
  match a with
  | some v => if jsFalsy v then b else v
  | none => b

/-- JavaScript truthiness of an optional array value: `undefined` is falsy,
an array is truthy even when empty. -/
def jsTruthyOptList {α : Type} : Option (List α) → Bool
  | none => false
  | some _ => true

/-- JavaScript truthiness of an optional string: `undefined`, `null` and the
empty string are falsy. -/
def jsTruthyOptStr : Option String → Bool
  | none => false
  | some s => s != ""

/-- JavaScript `s.trim()` used as a condition: truthy exactly when `s`
contains a non-whitespace character. -/
def jsTrimTruthy (s : String) : Bool :=
  s.data.any (fun c => !c.isWhitespace)

mutual

/-- `JSON.stringify` (string escaping elided; only used as an opaque
best-effort string rendering by the coercion helpers). -/
def Js.stringify : Js → String
  | .null => "null"
  | .bool true => "true"
  | .bool false => "false"
  | .num q => toString q
  | .str s => "\"" ++ s ++ "\""
  | .arr xs => "[" ++ String.intercalate "," (stringifyList xs) ++ "]"
  | .obj fs => "\x7b" ++ String.intercalate "," (stringifyFields fs) ++ "\x7d"

/-- Renders each element of a JSON array. -/
def stringifyList : List Js → List String
  | [] => []
  | x :: xs => Js.stringify x :: stringifyList xs

/-- Renders each `key: value` binding of a JSON object. -/
def stringifyFields : List (String × Js) → List String
  | [] => []
  | (k, v) :: fs => ("\"" ++ k ++ "\":" ++ Js.stringify v) :: stringifyFields fs

end

/-! ## Vector Normalizer (`fit` in `createEmbeddingsOVMS` / `createEmbeddings`)

```ts
const fit = (v: number[]): number[] => {
    if (v.length === targetDim) return v;
    if (v.length > targetDim) return v.slice(0, targetDim);
    const out = new Array(targetDim).fill(0);
    for (let i = 0; i < v.length; i++) out[i] = v[i];
    return out;
};
```
-/

/-- The copy loop `for (let i = 0; i < v.length; i++) out[i] = v[i]`:
overwrite the prefix of `out` with the elements of `v`. -/
def writePrefix : List Rat → List Rat → List Rat
  | out, [] => out
  | [], _ :: _ => []
  | _ :: outRest, x :: xs => x :: writePrefix outRest xs

/-- The embedding-dimension fitter. -/
def fit (targetDim : Nat) (v : List Rat) : List Rat :=
  if v.length = targetDim then v
  else if v.length > targetDim then v.take targetDim
  else writePrefix (List.replicate targetDim 0) v

theorem writePrefix_replicate (v : List Rat) :
    ∀ d : Nat, v.length ≤ d →
      writePrefix (List.replicate d 0) v = v ++ List.replicate (d - v.length) 0 := by
  induction v with
  | nil => intro d _; simp [writePrefix]
  | cons x xs ih =>
      intro d hd
      match d, hd with
      | d + 1, hd =>
        simp only [List.replicate_succ, writePrefix, List.cons_append, List.cons.injEq, true_and]
        have : xs.length ≤ d := by simpa using hd
        rw [ih d this]
        congr 1
        simp [List.length_cons]

theorem fit_length (d : Nat) (v : List Rat) : (fit d v).length = d := by
  unfold fit
  split
  · next h => exact h
  · split
    · rw [List.length_take]; omega
    · rw [writePrefix_replicate v d (by omega)]
      rw [List.length_append, List.length_replicate]
      omega

theorem fit_truncate (d : Nat) (v : List Rat) (h : d ≤ v.length) :
    fit d v = v.take d := by
  unfold fit
  split
  · next he => rw [← he, List.take_length]
  · split
    · rfl
    · exact absurd h (by omega)

theorem fit_pad (d : Nat) (v : List Rat) (h : v.length < d) :
    fit d v = v ++ List.replicate (d - v.length) 0 := by
  unfold fit
  split
  · next he => exact absurd he (by omega)
  · split
    · next hg => exact absurd hg (by omega)
    · exact writePrefix_replicate v d (Nat.le_of_lt h)

/-- C1: the Vector Normalizer returns a vector of length exactly `targetDim`;
it truncates when the input is longer, zero-pads (preserving the input as a
prefix) when shorter, and passes the input through unchanged when equal. -/
theorem fit_spec (d : Nat) (v : List Rat) :
    (fit d v).length = d ∧
    (d ≤ v.length → fit d v = v.take d) ∧
    (v.length < d → (fit d v).take v.length = v ∧
        (fit d v).drop v.length = List.replicate (d - v.length) 0) ∧
    (v.length = d → fit d v = v) := by
  refine ⟨fit_length d v, fun h => fit_truncate d v h, fun h => ?_, fun h => ?_⟩
  · rw [fit_pad d v h]
    exact ⟨List.take_left v _, List.drop_left v _⟩
  · rw [fit_truncate d v (Nat.le_of_eq h.symm), ← h, List.take_length]

/-- Witness for `fit_spec`: a 2-vector fitted to dimension 4 keeps its prefix
and is padded with zeros, and a 3-vector fitted to dimension 2 is truncated. -/
theorem fit_spec_witness :
    ((fit 4 [(1 : Rat), 2]).take 2 = [(1 : Rat), 2] ∧
      (fit 4 [(1 : Rat), 2]).drop 2 = List.replicate (4 - 2) 0) ∧
    fit 2 [(1 : Rat), 2, 3] = [(1 : Rat), 2, 3].take 2 := by
  refine ⟨?_, ?_⟩
  · have h := (fit_spec 4 [(1 : Rat), 2]).2.2.1 (by decide)
    simpa using h
  · exact (fit_spec 2 [(1 : Rat), 2, 3]).2.1 (by decide)

/-! ## Chat messages and the Provider Gateway chat body

`chatCompletionOVMS` (and `chatCompletion` in the Ollama service) builds

```ts
const body = {
    model: params.extra?.model || this.llmModelName,
    messages: params.messages,
    temperature: params.temperature ?? 0.3,
    max_tokens: params.maxTokens ?? 1024,
    stream: false,
    ...(params.extra ?? {}),
};
```
-/

inductive ChatRole where
  | system
  | user
  | assistant
  | tool
  | function
deriving DecidableEq

instance : BEq ChatRole := ⟨fun a b => decide (a = b)⟩

structure ChatMessage where
  role : ChatRole
  content : String
deriving DecidableEq

/-- The wire name of a chat role. -/
def ChatRole.name : ChatRole → String
  | .system => "system"
  | .user => "user"
  | .assistant => "assistant"
  | .tool => "tool"
  | .function => "function"

/-- A chat message as the JSON value posted to a provider. -/
def encodeChatMessage (m : ChatMessage) : Js :=
  Js.obj [("role", Js.str m.role.name), ("content", Js.str m.content)]

/-- The body of the OVMS chat-completion request. `extra = none` models a
call without `params.extra`. -/
def chatCompletionOVMS_body (llmModelName : String) (messages : List ChatMessage)
    (temperature maxTokens : Option Rat) (extra : Option (List (String × Js))) :
    List (String × Js) :=
  spreadObj
    [("model", jsOr (jsGet (extra.getD []) "model") (Js.str llmModelName)),
     ("messages", Js.arr (messages.map encodeChatMessage)),
     ("temperature", Js.num (temperature.getD (3/10))),
     ("max_tokens", Js.num (maxTokens.getD 1024)),
     ("stream", Js.bool false)]
    (extra.getD [])

theorem jsGet_setKey_self (o : List (String × Js)) (k : String) (v : Js) :
    jsGet (setKey o k v) k = some v := by
  induction o with
  | nil => simp [setKey, jsGet, List.find?]
  | cons p rest ih =>
      by_cases hp : p.1 = k
      · simp [setKey, jsGet, List.find?, hp]
      · have hb : (p.1 == k) = false := by simpa using hp
        simp only [setKey, hb, if_false]
        simpa [jsGet, List.find?, hb] using ih

theorem jsGet_setKey_ne (o : List (String × Js)) (k' k : String) (v : Js)
    (h : k' ≠ k) : jsGet (setKey o k' v) k = jsGet o k := by
  have hb : (k' == k) = false := by simpa using h
  induction o with
  | nil => simp [setKey, jsGet, List.find?, hb]
  | cons p rest ih =>
      by_cases hp : p.1 = k'
      · have hpk : (p.1 == k) = false := by
          have : p.1 ≠ k := hp ▸ h
          simpa using this
        simp [setKey, hp, jsGet, List.find?, hb, hpk]
      · have hpb : (p.1 == k') = false := by simpa using hp
        simp only [setKey, hpb, if_false]
        by_cases hpk : p.1 = k
        · simp [jsGet, List.find?, hpk]
        · have hpkb : (p.1 == k) = false := by simpa using hpk
          simpa [jsGet, List.find?, hpkb] using ih

theorem jsGet_spreadObj_not_mem (base extra : List (String × Js)) (k : String)
    (h : ∀ p ∈ extra, p.1 ≠ k) :
    jsGet (spreadObj base extra) k = jsGet base k := by
  induction extra generalizing base with
  | nil => rfl
  | cons p rest ih =>
      have hp : p.1 ≠ k := h p (List.mem_cons_self p rest)
      have hrest : ∀ q ∈ rest, q.1 ≠ k := fun q hq => h q (List.mem_cons_of_mem p hq)
      show jsGet (spreadObj (setKey base p.1 p.2) rest) k = jsGet base k
      rw [ih (setKey base p.1 p.2) hrest, jsGet_setKey_ne base p.1 k p.2 hp]

theorem jsGet_spreadObj_mem (base extra : List (String × Js)) (k : String) (v : Js)
    (hnd : (extra.map Prod.fst).Nodup) (hmem : (k, v) ∈ extra) :
    jsGet (spreadObj base extra) k = some v := by
  induction extra generalizing base with
  | nil => cases hmem
  | cons p rest ih =>
      rcases List.mem_cons.mp hmem with he | hm
      · subst he
        have hrest : ∀ q ∈ rest, q.1 ≠ k := by
          intro q hq he
          have : q.1 ∈ rest.map Prod.fst := List.mem_map_of_mem Prod.fst hq
          rw [he] at this
          exact (List.nodup_cons.mp hnd).1 this
        show jsGet (spreadObj (setKey base k v) rest) k = some v
        rw [jsGet_spreadObj_not_mem _ rest k hrest, jsGet_setKey_self]
      · exact ih (setKey base p.1 p.2) (List.nodup_cons.mp hnd).2 hm

/-- C3 counterexample: when the caller-supplied `extra` record itself contains
a `messages` key, the spread `...(params.extra ?? {})` overwrites the
`messages` field of the body, so the body's messages do NOT equal the
`messages` argument. -/
theorem chatCompletionOVMS_messages_hijack :
    jsGet (chatCompletionOVMS_body "model-a" [⟨ChatRole.user, "hi"⟩] none none
        (some [("messages", Js.str "HIJACK")])) "messages"
      = some (Js.str "HIJACK") ∧
    Js.str "HIJACK" ≠ Js.arr (([⟨ChatRole.user, "hi"⟩] : List ChatMessage).map encodeChatMessage) := by
  constructor
  · rfl
  · intro h
    exact Js.noConfusion h

/-- C3 amended: `extra` is spread last, so its fields override the defaults —
including `messages`.  When `extra` does not contain a `messages` key, the
body's `messages` field equals the caller's messages; and every binding of an
`extra` with no duplicate keys ends up verbatim in the body. -/
theorem chatCompletionOVMS_body_spec (llm : String) (messages : List ChatMessage)
    (temperature maxTokens : Option Rat) (extra : List (String × Js))
    (hnm : ∀ p ∈ extra, p.1 ≠ "messages")
    (hnd : (extra.map Prod.fst).Nodup) :
    jsGet (chatCompletionOVMS_body llm messages temperature maxTokens (some extra)) "messages"
      = some (Js.arr (messages.map encodeChatMessage)) ∧
    ∀ k v, (k, v) ∈ extra →
      jsGet (chatCompletionOVMS_body llm messages temperature maxTokens (some extra)) k
        = some v := by
  constructor
  · unfold chatCompletionOVMS_body
    simp only [Option.getD_some]
    rw [jsGet_spreadObj_not_mem _ extra "messages" hnm]
    rfl
  · intro k v hmem
    unfold chatCompletionOVMS_body
    simp only [Option.getD_some]
    exact jsGet_spreadObj_mem _ extra k v hnd hmem

/-- Witness for `chatCompletionOVMS_body_spec` at a concrete call with a
non-conflicting `extra` record. -/
theorem chatCompletionOVMS_body_spec_witness :
    jsGet (chatCompletionOVMS_body "model-a" [⟨ChatRole.user, "hi"⟩] none none
        (some [("top_p", Js.num (9/10))])) "messages"
      = some (Js.arr (([⟨ChatRole.user, "hi"⟩] : List ChatMessage).map encodeChatMessage)) ∧
    jsGet (chatCompletionOVMS_body "model-a" [⟨ChatRole.user, "hi"⟩] none none
        (some [("top_p", Js.num (9/10))])) "top_p" = some (Js.num (9/10)) := by
  have h := chatCompletionOVMS_body_spec "model-a" [⟨ChatRole.user, "hi"⟩] none none
    [("top_p", Js.num (9/10))]
    (by intro p hp; simp only [List.mem_singleton] at hp; subst hp; decide)
    (by simp)
  exact ⟨h.1, h.2 "top_p" (Js.num (9/10)) (by simp)⟩

/-! ## Retrieval Engine candidate count (`milvusSearch`, lines 535–554)

```ts
const topK = parseInt(process.env.RETRIEVE_TOP_K || '5', 10);
let useReranker = false;
if (embeddingProvider === 'opea') {
    useReranker = true;
} else {
    useReranker = (process.env.USE_RERANKER || 'false').toLowerCase() === 'true';
}
const retrieveK = useReranker ? Math.min(topK * 3, 20) : topK;
```
-/

/-- JavaScript `a || b` on strings (`a` may be unset). -/
def jsOrStr (a : Option String) (b : String) : String :=
  match a with
  | some s => if s == "" then b else s
  | none => b

/-- ASCII lower-casing of one character (the fragment of
`String.prototype.toLowerCase` relevant to the flag values). -/
def charLower (c : Char) : Char :=
  if 65 ≤ c.toNat ∧ c.toNat ≤ 90 then Char.ofNat (c.toNat + 32) else c

/-- `s.toLowerCase()`. -/
def strLower (s : String) : String := String.mk (s.data.map charLower)

/-- `(process.env.USE_RERANKER || 'false').toLowerCase() === 'true'`. -/
def useRerankerFlag (useRerankerEnv : Option String) : Bool :=
  strLower (jsOrStr useRerankerEnv "false") == "true"

/-- Whether reranking is active for this search. -/
def milvusUseReranker (embeddingProvider : String) (useRerankerEnv : Option String) : Bool :=
  if embeddingProvider == "opea" then true
  else useRerankerFlag useRerankerEnv

/-- The candidate count passed to `milvusService.search`. -/
def milvusRetrieveK (topK : Nat) (embeddingProvider : String)
    (useRerankerEnv : Option String) : Nat :=
  if milvusUseReranker embeddingProvider useRerankerEnv then min (topK * 3) 20 else topK

/-- C7: the vector index is asked for `k` candidates when reranking is
inactive and `min(3·k, 20)` when active; reranking is active for the `opea`
embedding provider regardless of the `USE_RERANKER` flag, and otherwise
exactly when that flag is set to true. -/
theorem milvusSearch_retrieveK_spec (topK : Nat) (p : String) (env : Option String) :
    (milvusUseReranker p env = false → milvusRetrieveK topK p env = topK) ∧
    (milvusUseReranker p env = true → milvusRetrieveK topK p env = min (3 * topK) 20) ∧
    milvusUseReranker "opea" env = true ∧
    (p ≠ "opea" → milvusUseReranker p env = useRerankerFlag env) := by
  refine ⟨fun h => ?_, fun h => ?_, ?_, fun h => ?_⟩
  · simp [milvusRetrieveK, h]
  · simp [milvusRetrieveK, h, Nat.mul_comm]
  · simp [milvusUseReranker]
  · have hb : (p == "opea") = false := by simpa using h
    simp [milvusUseReranker, hb]

/-- Witness for `milvusSearch_retrieveK_spec` at `topK = 5` for both an
`ollama` request without the flag and an `opea` request. -/
theorem milvusSearch_retrieveK_spec_witness :
    (milvusUseReranker "ollama" none = false ∧ milvusRetrieveK 5 "ollama" none = 5) ∧
    (milvusUseReranker "opea" none = true ∧ milvusRetrieveK 5 "opea" none = min (3 * 5) 20) ∧
    milvusUseReranker "ollama" none = useRerankerFlag none := by
  have h1 := milvusSearch_retrieveK_spec 5 "ollama" none
  have h2 := milvusSearch_retrieveK_spec 5 "opea" none
  refine ⟨⟨by decide, h1.1 (by decide)⟩, ⟨h2.2.2.1, h2.2.1 h2.2.2.1⟩, h1.2.2.2 (by decide)⟩

/-! ## Intent Classifier output handling (`detectChartIntentWithLLM`,
`detectAlertIntentWithLLM`)

The classifier completion content may be a plain string, a content-part
array, an embedded object, `null`/absent, or unparseable text.  Each
detector coerces it to a string, strips Markdown code fences, and
`JSON.parse`s it inside a try/catch whose catch returns the "no intent"
default.  `JSON.parse` itself is an external builtin, modelled as a
`parseJson` argument returning `none` on a parse failure (a throw). -/

/-- The relative time window `last {value, unit}` of a chart intent. -/
structure LastWindow where
  value : Int
  unit : String
deriving DecidableEq

/-- Chart-intent extraction result (`from`/`to` are named `fromTs`/`toTs`
because `from` is reserved in Lean). -/
structure ChartIntent where
  wants_chart : Bool
  asset_urn : Option String := none
  metric : Option String := none
  last : Option LastWindow := none
  fromTs : Option String := none
  toTs : Option String := none
deriving DecidableEq

/-- Alert-intent extraction result. -/
structure AlertIntent where
  wants_alert : Bool
  asset_urn : Option String := none
deriving DecidableEq

/-- String-valued property of a JSON object (`typeof x.k === 'string'`). -/
def strField (v : Js) (k : String) : Option String :=
  match v with
  | .obj fs =>
      match jsGet fs k with
      | some (.str s) => some s
      | _ => none
  | _ => none

/-- The chart detector's `asString` coercion:

```ts
if (typeof x === 'string') return x;
if (x == null) return '';
if (typeof x === 'object') {
    if (x.content && typeof x.content === 'string') return x.content;
    if (x.text && typeof x.text === 'string') return x.text;
    if (x.message && typeof x.message === 'string') return x.message;
    return JSON.stringify(x);
}
return String(x);
```
(arrays fall into the object branch and, having no such properties, are
stringified). -/
def asStringChart (x : Option Js) : String :=
  match x with
  | some (.str s) => s
  | none => ""
  | some .null => ""
  | some (.obj fs) =>
      match strField (.obj fs) "content" with
      | some s => s
      | none =>
          match strField (.obj fs) "text" with
          | some s => s
          | none =>
              match strField (.obj fs) "message" with
              | some s => s
              | none => (Js.obj fs).stringify
  | some (.arr xs) => (Js.arr xs).stringify
  | some (.bool b) => if b then "true" else "false"
  | some (.num q) => toString q

/-- One content part of the alert detector's array case:
`typeof p === 'string' ? p : typeof p?.text === 'string' ? p.text
: typeof p?.text?.value === 'string' ? p.text.value : ''`. -/
def contentPartToString (p : Js) : String :=
  match p with
  | .str s => s
  | .obj fs =>
      match jsGet fs "text" with
      | some (.str s) => s
      | some t => (strField t "value").getD ""
      | none => ""
  | _ => ""

/-- The alert detector's `asString` coercion (string / array-of-parts with
`filter(Boolean).join('\n')` / object via stringify / else empty). -/
def asStringAlert (x : Option Js) : String :=
  match x with
  | some (.str s) => s
  | some (.arr parts) =>
      String.intercalate "\n" ((parts.map contentPartToString).filter (fun s => s != ""))
  | some (.obj fs) => (Js.obj fs).stringify
  | _ => ""

/-- `out.replace(/^```(?:json)?\s*|\s*```$/g, '').trim()`. -/
def stripFences (s : String) : String :=
  let s1 := if s.startsWith "```json" then (s.drop 7).trimLeft
            else if s.startsWith "```" then (s.drop 3).trimLeft
            else s
  let s2 := if s1.endsWith "```" then (s1.dropRight 3).trimRight else s1
  s2.trim

/-- Chart-intent detection outcome for a given completion content: parse the
coerced, fence-stripped string; the catch of a parse failure returns
`{ wants_chart: false }`. -/
def detectChartIntentWithLLM (content : Option Js)
    (parseJson : String → Option ChartIntent) : ChartIntent :=
  match parseJson (stripFences (asStringChart content)) with
  | some v => v
  | none => { wants_chart := false }

/-- Alert-intent detection outcome: the catch of a parse failure returns
`{ wants_alert: false }`. -/
def detectAlertIntentWithLLM (content : Option Js)
    (parseJson : String → Option AlertIntent) : AlertIntent :=
  match parseJson (stripFences (asStringAlert content)) with
  | some v => v
  | none => { wants_alert := false }

/-- C9: for any completion content — plain string, content-part array,
embedded object, or unparseable text — a JSON parse failure never escapes
either detector: both are total and return the conservative no-intent
defaults `{wants_chart: false}` / `{wants_alert: false}`. -/
theorem detectIntent_parse_failure (content : Option Js)
    (parseC : String → Option ChartIntent) (parseA : String → Option AlertIntent)
    (hC : parseC (stripFences (asStringChart content)) = none)
    (hA : parseA (stripFences (asStringAlert content)) = none) :
    detectChartIntentWithLLM content parseC = { wants_chart := false } ∧
    detectAlertIntentWithLLM content parseA = { wants_alert := false } := by
  unfold detectChartIntentWithLLM detectAlertIntentWithLLM
  rw [hC, hA]
  exact ⟨rfl, rfl⟩

/-- Witness for `detectIntent_parse_failure`: a plain-text completion that is
not JSON, with a parser that fails on everything. -/
theorem detectIntent_parse_failure_witness :
    detectChartIntentWithLLM (some (Js.str "this is not JSON"))
        (fun _ => none) = { wants_chart := false } ∧
    detectAlertIntentWithLLM (some (Js.str "this is not JSON"))
        (fun _ => none) = { wants_alert := false } :=
  detectIntent_parse_failure (some (Js.str "this is not JSON"))
    (fun _ => none) (fun _ => none) rfl rfl

/-! ## Chart path gating (`maybeGetChartData`, `getChartSummaryIfAny`)

```ts
const lastUser = [...messages].reverse().find(m => m.role === 'user');
if (!lastUser) return null;
const nlu = await this.detectChartIntentWithLLM(lastUser.content);
if (!nlu.wants_chart || !nlu.asset_urn) return null;
let from = ""; let to = "";
if (nlu.from) from = nlu.from;
if (nlu.to) to = nlu.to;
const metric = nlu.metric ?? undefined;
if (this.pgPool && typeof nlu.asset_urn === 'string' && from && to) {
    return await this.fetchSeriesFromPostgres(nlu.asset_urn, metric, from, to);
}
return null;
```
The classifier call is external; its result `nlu` is a parameter. -/

/-- The arguments `fetchSeriesFromPostgres` would be called with. -/
structure ChartFetchArgs where
  assetUrn : String
  metric : Option String
  fromTs : String
  toTs : String
deriving DecidableEq

/-- One time-series point `{t, v}`. -/
structure TimeSeriesPoint where
  t : String
  v : Rat
deriving DecidableEq

/-- `ChartResult.meta`. -/
structure ChartMeta where
  assetUrn : String
  metric : Option String
  source : String
deriving DecidableEq

/-- A fetched time series with its metadata. -/
structure ChartResult where
  series : List TimeSeriesPoint
  meta : ChartMeta
deriving DecidableEq

/-- `maybeGetChartData`: the chart fetch is performed (with these arguments)
only when every gate passes; otherwise `null`. -/
def maybeGetChartData (pgConfigured : Bool) (messages : List ChatMessage)
    (nlu : ChartIntent) : Option ChartFetchArgs :=
  match messages.reverse.find? (fun m => m.role == ChatRole.user) with
  | none => none
  | some _ =>
      if !nlu.wants_chart || !(jsTruthyOptStr nlu.asset_urn) then none
      else
        let fromS := if jsTruthyOptStr nlu.fromTs then nlu.fromTs.getD "" else ""
        let toS := if jsTruthyOptStr nlu.toTs then nlu.toTs.getD "" else ""
        if pgConfigured && nlu.asset_urn.isSome && (fromS != "") && (toS != "") then
          some ⟨nlu.asset_urn.getD "", nlu.metric, fromS, toS⟩
        else none

/-- `formatChartSummary` output. -/
structure ChartSummary where
  summary : String
  first10 : List TimeSeriesPoint
  last10 : List TimeSeriesPoint
deriving DecidableEq

/-- `formatChartSummary`: point count, min/max (when any finite value exists —
every `Rat` is finite in this model), head and tail slices of 100 points. -/
def formatChartSummary (chart : ChartResult) : ChartSummary :=
  let pts := chart.series.length
  let first10 := chart.series.take 100
  let last10 := chart.series.drop (pts - 100)
  let vals := chart.series.map (fun p => p.v)
  let minv := vals.min?
  let maxv := vals.max?
  let summary :=
    "Live data (" ++ chart.meta.metric.getD "metric" ++ ") for " ++ chart.meta.assetUrn ++
    "\nPoints: " ++ toString pts ++
    (match minv, maxv with
     | some mn, some mx => ", Min: " ++ toString mn ++ ", Max: " ++ toString mx
     | _, _ => "")
  ⟨summary, first10, last10⟩

/-- The shapes `getChartSummaryIfAny` can return (besides `null`). -/
inductive ChartSummaryResp where
  | chartData (chart : ChartResult) (s : ChartSummary)
  | clarification (message : String)
deriving DecidableEq

/-- `getChartSummaryIfAny` on the chart value produced by
`maybeGetChartData` (a thrown fetch error is caught, leaving `chart` null). -/
def getChartSummaryIfAny (chart : Option ChartResult) : Option ChartSummaryResp :=
  match chart with
  | some c =>
      if 0 < c.series.length then some (.chartData c (formatChartSummary c))
      else some (.clarification "Make sure you have mentioned asset ID, metric, from and to dates.")
  | none => none

/-- C5: the chart fetch happens only when `wants_chart` is true and
`asset_urn`, a non-empty `from` and a non-empty `to` are all present; when
any of them is missing the request yields `null` and (composed with the
summary step over any fetch behaviour) falls through to the conversational
path instead of erroring. -/
theorem maybeGetChartData_gating (pg : Bool) (messages : List ChatMessage)
    (nlu : ChartIntent) (fetch : ChartFetchArgs → Option ChartResult)
    (hmiss : nlu.wants_chart = false ∨ jsTruthyOptStr nlu.asset_urn = false ∨
      jsTruthyOptStr nlu.fromTs = false ∨ jsTruthyOptStr nlu.toTs = false) :
    maybeGetChartData pg messages nlu = none ∧
    getChartSummaryIfAny ((maybeGetChartData pg messages nlu).bind fetch) = none ∧
    ∀ args, maybeGetChartData pg messages nlu = some args →
      nlu.wants_chart = true ∧ (∃ s, nlu.asset_urn = some s ∧ s ≠ "") ∧
      (∃ f, nlu.fromTs = some f ∧ f ≠ "") ∧ (∃ t, nlu.toTs = some t ∧ t ≠ "") := by
  have hnone : maybeGetChartData pg messages nlu = none := by
    unfold maybeGetChartData
    cases hfind : messages.reverse.find? (fun m => m.role == ChatRole.user) with
    | none => rfl
    | some m =>
        rcases hmiss with h | h | h | h
        · simp [h]
        · simp [h]
        · rcases hwc : nlu.wants_chart with _ | _
          · simp
          · rcases hurn : jsTruthyOptStr nlu.asset_urn with _ | _
            · simp
            · simp only [hwc, hurn, Bool.not_true, Bool.or_self, Bool.false_or, if_false]
              simp [h]
        · rcases hwc : nlu.wants_chart with _ | _
          · simp
          · rcases hurn : jsTruthyOptStr nlu.asset_urn with _ | _
            · simp
            · simp only [hwc, hurn, Bool.not_true, Bool.or_self, Bool.false_or, if_false]
              simp [h]
  refine ⟨hnone, by rw [hnone]; rfl, fun args hsome => ?_⟩
  rw [hnone] at hsome
  exact Option.noConfusion hsome

/-- Witness for `maybeGetChartData_gating`: chart intent with an asset but no
resolvable time range falls through to the conversational path. -/
theorem maybeGetChartData_gating_witness :
    maybeGetChartData true [⟨ChatRole.user, "chart for urn:iff:asset:42"⟩]
      { wants_chart := true, asset_urn := some "urn:iff:asset:42", metric := some "pressure",
        last := some ⟨3, "d"⟩ } = none ∧
    getChartSummaryIfAny ((maybeGetChartData true [⟨ChatRole.user, "chart for urn:iff:asset:42"⟩]
      { wants_chart := true, asset_urn := some "urn:iff:asset:42", metric := some "pressure",
        last := some ⟨3, "d"⟩ }).bind (fun _ => none)) = none := by
  have h := maybeGetChartData_gating true [⟨ChatRole.user, "chart for urn:iff:asset:42"⟩]
    { wants_chart := true, asset_urn := some "urn:iff:asset:42", metric := some "pressure",
      last := some ⟨3, "d"⟩ } (fun _ => none)
    (Or.inr (Or.inr (Or.inl rfl)))
  exact ⟨h.1, h.2.1⟩

/-! ## Alert path (`maybeGetAlertData`, `getAlertsDataIfAny`)

```ts
let alerts = [];
try {
    const resAlerts = await axios.get(...);
    alerts = resAlerts.data.alerts || [];
} catch (error) { this.log.error(...); }
return { alerts, meta: { assetUrn, source: 'alerta' } };
```
then

```ts
if (alert?.alerts) {
    const reply = `Here’s the live alerts:\n\n`;
    return { reply, alerts: alert?.alerts };
} else if (alert?.alerts.length === 0) {
    const reply = `No live data available for ${alert.meta.assetUrn}.`;
    return { reply, alerts: alert?.alerts };
} else {
    return null;
}
```
-/

/-- `AlertResult.meta`. -/
structure AlertaMeta where
  assetUrn : String
  source : String

/-- The alert fetch result; `alerts` is always an array. -/
structure AlertResult where
  alerts : List Js
  meta : AlertaMeta

/-- `fetchAlertData`: a failed request or a missing `alerts` field
(`resAlerts.data.alerts || []`) yields the empty list. -/
def fetchAlertData (assetUrn : String) (apiAlerts : Option (List Js)) : AlertResult :=
  { alerts := apiAlerts.getD [], meta := { assetUrn := assetUrn, source := "alerta" } }

/-- `maybeGetAlertData` with the classifier result and the alert-API response
as parameters. -/
def maybeGetAlertData (messages : List ChatMessage) (nlu : AlertIntent)
    (apiAlerts : Option (List Js)) : Option AlertResult :=
  match messages.reverse.find? (fun m => m.role == ChatRole.user) with
  | none => none
  | some _ =>
      if !nlu.wants_alert || !(jsTruthyOptStr nlu.asset_urn) then none
      else if nlu.asset_urn.isSome then
        some (fetchAlertData (nlu.asset_urn.getD "") apiAlerts)
      else none

/-- The `{reply, alerts}` object of the alert path. -/
structure AlertsReply where
  reply : String
  alerts : List Js

/-- `getAlertsDataIfAny` on the (caught) result of `maybeGetAlertData`.
`if (alert?.alerts)` tests JavaScript truthiness: an array — even an empty
one — is truthy, so the first branch fires whenever `alert` is non-null and
the `length === 0` branch is unreachable for a non-null `alert`. -/
def getAlertsDataIfAny (alert : Option AlertResult) : Option AlertsReply :=
  if jsTruthyOptList (alert.map (fun a => a.alerts)) then
    some { reply := "Here’s the live alerts:\n\n",
           alerts := (alert.map (fun a => a.alerts)).getD [] }
  else if (alert.map (fun a => a.alerts.length)) == some 0 then
    some { reply := "No live data available for " ++
             (alert.map (fun a => a.meta.assetUrn)).getD "" ++ ".",
           alerts := (alert.map (fun a => a.alerts)).getD [] }
  else none

/-- C2 (bug evaluation): an actionable alert conversation for
`urn:iff:asset:7` whose alert API returns zero alerts produces
`{reply: "Here’s the live alerts:\n\n", alerts: []}` — not the documented
`{reply: "No live data available for urn:iff:asset:7.", alerts: []}` —
because an empty array is truthy in JavaScript, making the
`alert?.alerts.length === 0` branch dead code. -/
theorem getAlertsDataIfAny_zero_alerts_bug :
    (getAlertsDataIfAny (maybeGetAlertData
        [⟨ChatRole.user, "show me current alerts for urn:iff:asset:7"⟩]
        { wants_alert := true, asset_urn := some "urn:iff:asset:7" }
        (some []))).map (fun r => (r.reply, r.alerts))
      = some ("Here’s the live alerts:\n\n", ([] : List Js)) ∧
    ("Here’s the live alerts:\n\n" : String)
      ≠ "No live data available for urn:iff:asset:7." := by
  exact ⟨rfl, by decide⟩

/-! ## Rerank response parsing (`rerankOVMS` / `rerankMegaService`)

```ts
const results: RerankResult[] = (resp.data?.results ?? resp.data?.data ?? []).map(
  (result: any, idx: number) => ({
    index: result.index ?? idx,
    relevance_score: result.relevance_score ?? result.score ?? 0.0,
    document: params.documents[result.index ?? idx],
  }));
```
-/

/-- An input document for reranking. -/
structure RerankDocument where
  text : String
  id : Option String := none
deriving DecidableEq

/-- One entry of the provider's rerank response (every field may be absent). -/
structure ProviderRerankEntry where
  index : Option Nat := none
  relevance_score : Option Rat := none
  score : Option Rat := none
deriving DecidableEq

/-- One parsed `RerankResult` (`document` is `undefined` when the effective
index is out of range). -/
structure RerankResult where
  index : Nat
  relevance_score : Rat
  document : Option RerankDocument
deriving DecidableEq

/-- One mapped entry at list position `idx`. -/
def mkRerankResult (documents : List RerankDocument) (idx : Nat)
    (e : ProviderRerankEntry) : RerankResult :=
  { index := e.index.getD idx,
    relevance_score := (e.relevance_score.or e.score).getD 0,
    document := documents.get? (e.index.getD idx) }

/-- The `.map((result, idx) => ...)` loop, carrying the position. -/
def rerankResultsGo (documents : List RerankDocument) :
    Nat → List ProviderRerankEntry → List RerankResult
  | _, [] => []
  | idx, e :: rest => mkRerankResult documents idx e :: rerankResultsGo documents (idx + 1) rest

/-- The parsed rerank results of `rerankOVMS` (identical parsing in
`rerankMegaService`). -/
def rerankOVMSResults (documents : List RerankDocument)
    (entries : List ProviderRerankEntry) : List RerankResult :=
  rerankResultsGo documents 0 entries

/-- The effective index of each response entry (`result.index ?? idx`). -/
def effIndicesGo : Nat → List ProviderRerankEntry → List Nat
  | _, [] => []
  | idx, e :: rest => e.index.getD idx :: effIndicesGo (idx + 1) rest

/-- Effective indices of a whole response. -/
def effIndices (entries : List ProviderRerankEntry) : List Nat :=
  effIndicesGo 0 entries

theorem map_index_rerankResultsGo (documents : List RerankDocument) :
    ∀ (entries : List ProviderRerankEntry) (n : Nat),
      (rerankResultsGo documents n entries).map (fun r => r.index) = effIndicesGo n entries := by
  intro entries
  induction entries with
  | nil => intro n; rfl
  | cons e rest ih =>
      intro n
      simp only [rerankResultsGo, effIndicesGo, List.map_cons, ih (n + 1)]
      rfl

theorem get?_rerankResultsGo (documents : List RerankDocument) :
    ∀ (entries : List ProviderRerankEntry) (n k : Nat),
      (rerankResultsGo documents n entries).get? k
        = (entries.get? k).map (fun e => mkRerankResult documents (n + k) e) := by
  intro entries
  induction entries with
  | nil => intro n k; cases k <;> rfl
  | cons e rest ih =>
      intro n k
      cases k with
      | zero => rfl
      | succ k' =>
          have harith : n + 1 + k' = n + (k' + 1) := by omega
          simp only [rerankResultsGo, List.get?_cons_succ, ih (n + 1) k', harith]

/-- C4 counterexample: a provider response whose reported index 5 is out of
range for a single-document list flows straight into the parsed results, so
`RerankResult.index` is NOT always a valid index into the original document
list. -/
theorem rerankOVMS_index_out_of_range :
    (rerankOVMSResults [{ text := "doc0" }] [{ index := some 5 }]).map (fun r => r.index)
      = [5] ∧
    ¬ (5 < ([{ text := "doc0" }] : List RerankDocument).length) := by
  exact ⟨rfl, by decide⟩

/-- C4 amended: each parsed result's index equals the provider-reported index
(or its response position when absent); provided every effective index is in
range and the effective indices are pairwise distinct, each result's index is
a valid index into the original document list and appears at most once; an
entry missing both score fields yields `relevance_score` 0 rather than a
failure. -/
theorem rerankOVMS_results_spec (documents : List RerankDocument)
    (entries : List ProviderRerankEntry)
    (hvalid : ∀ i ∈ effIndices entries, i < documents.length)
    (hnodup : (effIndices entries).Nodup) :
    ((rerankOVMSResults documents entries).map (fun r => r.index) = effIndices entries) ∧
    (∀ r ∈ rerankOVMSResults documents entries, r.index < documents.length) ∧
    ((rerankOVMSResults documents entries).map (fun r => r.index)).Nodup ∧
    (∀ k e, entries.get? k = some e → e.relevance_score = none → e.score = none →
      ∃ r, (rerankOVMSResults documents entries).get? k = some r ∧ r.relevance_score = 0) := by
  have hmap : (rerankOVMSResults documents entries).map (fun r => r.index) = effIndices entries :=
    map_index_rerankResultsGo documents entries 0
  refine ⟨hmap, ?_, ?_, ?_⟩
  · intro r hr
    have : r.index ∈ (rerankOVMSResults documents entries).map (fun r => r.index) :=
      List.mem_map_of_mem _ hr
    rw [hmap] at this
    exact hvalid r.index this
  · rw [hmap]; exact hnodup
  · intro k e hk hrel hsc
    refine ⟨mkRerankResult documents (0 + k) e, ?_, ?_⟩
    · rw [show rerankOVMSResults documents entries = rerankResultsGo documents 0 entries from rfl,
        get?_rerankResultsGo documents entries 0 k, hk]
      rfl
    · simp [mkRerankResult, hrel, hsc, Option.or]

/-- Witness for `rerankOVMS_results_spec`: a two-document call whose provider
response reorders the documents and omits the score of one entry. -/
theorem rerankOVMS_results_spec_witness :
    ((rerankOVMSResults [{ text := "d0" }, { text := "d1" }]
        [{ index := some 1, score := some (1/2) }, { index := some 0, relevance_score := none, score := none }]).map
          (fun r => r.index)
      = effIndices [{ index := some 1, score := some (1/2) }, { index := some 0, relevance_score := none, score := none }]) ∧
    (∀ r ∈ rerankOVMSResults [{ text := "d0" }, { text := "d1" }]
        [{ index := some 1, score := some (1/2) }, { index := some 0, relevance_score := none, score := none }],
      r.index < ([{ text := "d0" }, { text := "d1" }] : List RerankDocument).length) ∧
    ((rerankOVMSResults [{ text := "d0" }, { text := "d1" }]
        [{ index := some 1, score := some (1/2) }, { index := some 0, relevance_score := none, score := none }]).map
          (fun r => r.index)).Nodup := by
  have h := rerankOVMS_results_spec [{ text := "d0" }, { text := "d1" }]
    [{ index := some 1, score := some (1/2) }, { index := some 0, relevance_score := none, score := none }]
    (by decide) (by decide)
  exact ⟨h.1, h.2.1, h.2.2.1⟩

/-! ## `rerankHits`

```ts
const documents = params.hits.map(hit => ({ text: hit.text, id: hit.id }));
const rerankResults = await this.rerank({ query, documents, topN: params.topK ?? params.hits.length });
const rerankedHits = rerankResults.map(result => {
    const originalHit = params.hits[result.index];
    return { id: originalHit.id, text: originalHit.text,
             score: originalHit.score, rerank_score: result.relevance_score };
});
rerankedHits.sort((a, b) => b.rerank_score - a.rerank_score);
return rerankedHits;
```
An out-of-range `result.index` makes `originalHit.id` throw (modelled as
`none`); the JavaScript sort is modelled by a stable insertion sort. -/

/-- A pre-scored retrieval hit. -/
structure Hit where
  id : String
  text : String
  score : Rat
deriving DecidableEq

/-- A reranked hit: the original retrieval score is kept alongside the new
relevance score. -/
structure RerankedHit where
  id : String
  text : String
  score : Rat
  rerank_score : Rat
deriving DecidableEq

/-- The comparator `(a, b) => b.rerank_score - a.rerank_score` orders by
`rerank_score` descending. -/
def byRerankDesc (a b : RerankedHit) : Prop :=
  b.rerank_score ≤ a.rerank_score

instance : DecidableRel byRerankDesc :=
  fun a b => inferInstanceAs (Decidable (b.rerank_score ≤ a.rerank_score))

instance : IsTotal RerankedHit byRerankDesc :=
  ⟨fun a b => le_total b.rerank_score a.rerank_score⟩

instance : IsTrans RerankedHit byRerankDesc :=
  ⟨fun _ _ _ hab hbc => le_trans hbc hab⟩

/-- The `rerankResults.map(...)` step of `rerankHits`. -/
def rerankHitsMapped (hits : List Hit) (results : List RerankResult) :
    Option (List RerankedHit) :=
  results.mapM (fun r => (hits.get? r.index).map
    (fun h => ⟨h.id, h.text, h.score, r.relevance_score⟩))

/-- `rerankHits` given the provider's parsed rerank results. -/
def rerankHits (hits : List Hit) (results : List RerankResult) :
    Option (List RerankedHit) :=
  (rerankHitsMapped hits results).map (List.insertionSort byRerankDesc)

theorem rerankHitsMapped_spec (hits : List Hit) :
    ∀ results : List RerankResult, (∀ r ∈ results, r.index < hits.length) →
      ∃ l, rerankHitsMapped hits results = some l ∧
        l.length = results.length ∧
        ∀ k r, results.get? k = some r →
          ∃ h, hits.get? r.index = some h ∧
            l.get? k = some ⟨h.id, h.text, h.score, r.relevance_score⟩ := by
  intro results
  induction results with
  | nil =>
      intro _
      refine ⟨[], rfl, rfl, ?_⟩
      intro k r hk
      cases k <;> cases hk
  | cons r rest ih =>
      intro hidx
      have hr : r.index < hits.length := hidx r (List.mem_cons_self r rest)
      have hh : hits.get? r.index = some (hits.get ⟨r.index, hr⟩) := List.get?_eq_get hr
      set h := hits.get ⟨r.index, hr⟩ with hdef
      obtain ⟨l', hl', hlen', hspec'⟩ :=
        ih (fun q hq => hidx q (List.mem_cons_of_mem r hq))
      refine ⟨⟨h.id, h.text, h.score, r.relevance_score⟩ :: l', ?_, ?_, ?_⟩
      · simp only [rerankHitsMapped, List.mapM_cons]
        rw [show hits.get? r.index = some h from hh]
        simp only [Option.map_some']
        rw [show rest.mapM (fun q => (hits.get? q.index).map
            (fun h => (⟨h.id, h.text, h.score, q.relevance_score⟩ : RerankedHit))) = some l' from hl']
        rfl
      · simp only [List.length_cons, hlen']
      · intro k q hk
        cases k with
        | zero =>
            simp only [List.get?_cons_zero, Option.some.injEq] at hk
            subst hk
            exact ⟨h, hh, rfl⟩
        | succ k' => exact hspec' k' q hk

/-- C8: when every rerank-result index lies within the hit list, `rerankHits`
returns one record per rerank result whose `id`, `text` and `score` are those
of the original hit at that index and whose `rerank_score` is the new
relevance score, and the returned list is sorted by `rerank_score`
descending. -/
theorem rerankHits_spec (hits : List Hit) (results : List RerankResult)
    (hidx : ∀ r ∈ results, r.index < hits.length) :
    ∃ mapped out,
      rerankHitsMapped hits results = some mapped ∧
      rerankHits hits results = some out ∧
      out.length = results.length ∧
      List.Perm out mapped ∧
      (∀ k r, results.get? k = some r →
        ∃ h, hits.get? r.index = some h ∧
          mapped.get? k = some ⟨h.id, h.text, h.score, r.relevance_score⟩) ∧
      List.Sorted byRerankDesc out := by
  obtain ⟨mapped, hm, hlen, hspec⟩ := rerankHitsMapped_spec hits results hidx
  refine ⟨mapped, List.insertionSort byRerankDesc mapped, hm, ?_, ?_, ?_, hspec, ?_⟩
  · simp [rerankHits, hm]
  · rw [List.length_insertionSort]; exact hlen
  · exact List.perm_insertionSort byRerankDesc mapped
  · exact List.sorted_insertionSort byRerankDesc mapped

/-- Witness for `rerankHits_spec` at a concrete pair of hits reordered by the
reranker. -/
theorem rerankHits_spec_witness :
    (∀ r ∈ ([⟨0, 1/10, none⟩, ⟨1, 9/10, none⟩] : List RerankResult),
      r.index < ([⟨"a", "ta", 1⟩, ⟨"b", "tb", 2⟩] : List Hit).length) ∧
    ∃ mapped out,
      rerankHitsMapped [⟨"a", "ta", 1⟩, ⟨"b", "tb", 2⟩]
          [⟨0, 1/10, none⟩, ⟨1, 9/10, none⟩] = some mapped ∧
      rerankHits [⟨"a", "ta", 1⟩, ⟨"b", "tb", 2⟩]
          [⟨0, 1/10, none⟩, ⟨1, 9/10, none⟩] = some out ∧
      out.length = ([⟨0, 1/10, none⟩, ⟨1, 9/10, none⟩] : List RerankResult).length ∧
      List.Perm out mapped ∧
      (∀ k r, ([⟨0, 1/10, none⟩, ⟨1, 9/10, none⟩] : List RerankResult).get? k = some r →
        ∃ h, ([⟨"a", "ta", 1⟩, ⟨"b", "tb", 2⟩] : List Hit).get? r.index = some h ∧
          mapped.get? k = some ⟨h.id, h.text, h.score, r.relevance_score⟩) ∧
      List.Sorted byRerankDesc out :=
  ⟨by decide,
   rerankHits_spec [⟨"a", "ta", 1⟩, ⟨"b", "tb", 2⟩]
     [⟨0, 1/10, none⟩, ⟨1, 9/10, none⟩] (by decide)⟩

/-! ## Context splice onto the last user message (`handleQuery`, lines 826–843)

```ts
fullContext = contextText;
if (fullContext.trim()) {
    fullContext = `\n\n--- Context ---\n${fullContext}`;
}
const fullHistory = [systemPrompt, ...enhancedMessages];
if (fullContext.trim()) {
    const lastUserIdx = fullHistory.map((m, i) => ({ ...m, idx: i }))
        .reverse()
        .find(m => m.role === 'user')?.idx;
    if (lastUserIdx !== undefined) {
        fullHistory[lastUserIdx] = {
            ...fullHistory[lastUserIdx],
            content: `${fullHistory[lastUserIdx].content}\n\n--- Context ---\n${fullContext}`,
        };
    }
}
```
-/

/-- The index of the last `user`-role message, computed as in the source by
reversing the indexed history and taking the first match. -/
def lastUserIdx (history : List ChatMessage) : Option Nat :=
  ((history.enum.reverse).find? (fun p => p.2.role == ChatRole.user)).map (fun p => p.1)

/-- Reference recursion equal to `lastUserIdx` (with the found message). -/
def lastUserAux : List ChatMessage → Option (Nat × ChatMessage)
  | [] => none
  | m :: rest =>
      match lastUserAux rest with
      | some p => some (p.1 + 1, p.2)
      | none => if m.role == ChatRole.user then some (0, m) else none

theorem lastUserAux_enumFrom :
    ∀ (l : List ChatMessage) (n : Nat),
      ((List.enumFrom n l).reverse.find? (fun p => p.2.role == ChatRole.user))
        = (lastUserAux l).map (fun p => (n + p.1, p.2)) := by
  intro l
  induction l with
  | nil => intro n; rfl
  | cons m rest ih =>
      intro n
      rw [show List.enumFrom n (m :: rest) = (n, m) :: List.enumFrom (n + 1) rest from rfl,
        List.reverse_cons, List.find?_append, ih (n + 1)]
      cases haux : lastUserAux rest with
      | some p =>
          have harith : n + 1 + p.1 = n + (p.1 + 1) := by omega
          simp [lastUserAux, haux, Option.or, harith]
      | none =>
          simp only [lastUserAux, haux, Option.map_none', Option.none_or]
          cases hrole : (m.role == ChatRole.user) with
          | true => simp [List.find?, hrole]
          | false => simp [List.find?, hrole]

theorem lastUserIdx_eq_aux (history : List ChatMessage) :
    lastUserIdx history = (lastUserAux history).map (fun p => p.1) := by
  unfold lastUserIdx
  rw [show history.enum = List.enumFrom 0 history from rfl, lastUserAux_enumFrom history 0]
  cases lastUserAux history with
  | none => rfl
  | some p => simp

theorem lastUserAux_get :
    ∀ (l : List ChatMessage) (i : Nat) (m : ChatMessage), lastUserAux l = some (i, m) →
      l.get? i = some m ∧ m.role = ChatRole.user := by
  intro l
  induction l with
  | nil => intro i m h; cases h
  | cons hd rest ih =>
      intro i m h
      unfold lastUserAux at h
      cases haux : lastUserAux rest with
      | some p =>
          rw [haux] at h
          simp only [Option.some.injEq, Prod.mk.injEq] at h
          obtain ⟨hi, hm⟩ := h
          subst hi; subst hm
          exact ⟨(ih p.1 p.2 (by rw [haux])).1, (ih p.1 p.2 (by rw [haux])).2⟩
      | none =>
          rw [haux] at h
          cases hrole : (hd.role == ChatRole.user) with
          | true =>
              rw [hrole] at h
              simp only [if_true, Option.some.injEq, Prod.mk.injEq] at h
              obtain ⟨hi, hm⟩ := h
              subst hi; subst hm
              exact ⟨rfl, by simpa using hrole⟩
          | false =>
              rw [hrole] at h
              simp at h

theorem lastUserAux_none :
    ∀ (l : List ChatMessage), lastUserAux l = none →
      ∀ (j : Nat) (m : ChatMessage), l.get? j = some m → ¬ m.role = ChatRole.user := by
  intro l
  induction l with
  | nil => intro _ j m hj; cases j <;> cases hj
  | cons hd rest ih =>
      intro h j m hj
      unfold lastUserAux at h
      cases haux : lastUserAux rest with
      | some p => rw [haux] at h; cases h
      | none =>
          rw [haux] at h
          cases hrole : (hd.role == ChatRole.user) with
          | true => rw [hrole] at h; cases h
          | false =>
              cases j with
              | zero =>
                  simp only [List.get?_cons_zero, Option.some.injEq] at hj
                  subst hj
                  simpa using hrole
              | succ j' => exact ih haux j' m hj

theorem lastUserAux_last :
    ∀ (l : List ChatMessage) (i : Nat) (m : ChatMessage), lastUserAux l = some (i, m) →
      ∀ (j : Nat) (m2 : ChatMessage), i < j → l.get? j = some m2 →
        ¬ m2.role = ChatRole.user := by
  intro l
  induction l with
  | nil => intro i m h; cases h
  | cons hd rest ih =>
      intro i m h j m2 hij hj
      unfold lastUserAux at h
      cases haux : lastUserAux rest with
      | some p =>
          rw [haux] at h
          simp only [Option.some.injEq, Prod.mk.injEq] at h
          obtain ⟨hi, hm⟩ := h
          subst hi
          cases j with
          | zero => omega
          | succ j' => exact ih p.1 p.2 (by rw [haux]) j' m2 (by omega) hj
      | none =>
          rw [haux] at h
          cases hrole : (hd.role == ChatRole.user) with
          | true =>
              rw [hrole] at h
              simp only [if_true, Option.some.injEq, Prod.mk.injEq] at h
              obtain ⟨hi, _⟩ := h
              subst hi
              cases j with
              | zero => omega
              | succ j' => exact lastUserAux_none rest haux j' m2 hj
          | false => rw [hrole] at h; simp at h

theorem lastUserAux_isSome :
    ∀ (l : List ChatMessage), (∃ m ∈ l, m.role = ChatRole.user) →
      (lastUserAux l).isSome := by
  intro l
  induction l with
  | nil => intro ⟨m, hm, _⟩; cases hm
  | cons hd rest ih =>
      intro ⟨m, hm, hrole⟩
      unfold lastUserAux
      cases haux : lastUserAux rest with
      | some p => rfl
      | none =>
          rcases List.mem_cons.mp hm with he | hmem
          · subst he
            rw [show (m.role == ChatRole.user) = true from by simpa using hrole]
            rfl
          · have := ih ⟨m, hmem, hrole⟩
            rw [haux] at this
            cases this

/-- The context splice of `handleQuery`: prefix the non-empty rendered
context, then append it to the content of the last `user` message in place. -/
def spliceContext (history : List ChatMessage) (contextText : String) : List ChatMessage :=
  let fullContext := if jsTrimTruthy contextText
    then "\n\n--- Context ---\n" ++ contextText else contextText
  if jsTrimTruthy fullContext then
    match lastUserIdx history with
    | some i =>
        match history.get? i with
        | some m => history.set i
            { m with content := m.content ++ ("\n\n--- Context ---\n" ++ fullContext) }
        | none => history
    | none => history
  else history

theorem jsTrimTruthy_ctx (s : String) :
    jsTrimTruthy ("\n\n--- Context ---\n" ++ s) = true := by
  unfold jsTrimTruthy
  rw [String.data_append, List.any_append]
  have h : ("\n\n--- Context ---\n").data.any (fun c => !c.isWhitespace) = true := by decide
  rw [h, Bool.true_or]

/-- C6: with a non-empty rendered context and at least one `user` message,
the splice rewrites exactly the last `user`-role message, appending the
context block to its original content; no message is inserted or removed and
every other message is unchanged. -/
theorem spliceContext_spec (history : List ChatMessage) (contextText : String)
    (hctx : jsTrimTruthy contextText = true)
    (huser : ∃ m ∈ history, m.role = ChatRole.user) :
    ∃ i m, lastUserIdx history = some i ∧ history.get? i = some m ∧
      m.role = ChatRole.user ∧
      (∀ j m2, i < j → history.get? j = some m2 → ¬ m2.role = ChatRole.user) ∧
      (spliceContext history contextText).length = history.length ∧
      (spliceContext history contextText).get? i
        = some { m with content := m.content ++
            ("\n\n--- Context ---\n" ++ ("\n\n--- Context ---\n" ++ contextText)) } ∧
      (∀ j, j ≠ i → (spliceContext history contextText).get? j = history.get? j) := by
  have hsome := lastUserAux_isSome history huser
  obtain ⟨p, haux⟩ := Option.isSome_iff_exists.mp hsome
  obtain ⟨i, m⟩ := p
  have hidx : lastUserIdx history = some i := by
    rw [lastUserIdx_eq_aux, haux]; rfl
  obtain ⟨hget, hrole⟩ := lastUserAux_get history i m haux
  have hlast := lastUserAux_last history i m haux
  obtain ⟨hi, _⟩ := List.get?_eq_some.mp hget
  have hsplice : spliceContext history contextText = history.set i
      { m with content := m.content ++
        ("\n\n--- Context ---\n" ++ ("\n\n--- Context ---\n" ++ contextText)) } := by
    unfold spliceContext
    simp only [hctx, if_true, jsTrimTruthy_ctx, hidx, hget]
  refine ⟨i, m, hidx, hget, hrole, hlast, ?_, ?_, ?_⟩
  · rw [hsplice]; exact List.length_set history i _
  · rw [hsplice]; exact List.get?_set_eq_of_lt _ hi
  · intro j hj
    rw [hsplice]
    exact List.get?_set_ne _ history (fun he => hj he.symm)

/-- Witness for `spliceContext_spec` on a two-message history with a
non-empty context. -/
theorem spliceContext_spec_witness :
    ∃ i m, lastUserIdx [⟨ChatRole.system, "sys"⟩, ⟨ChatRole.user, "q"⟩] = some i ∧
      ([⟨ChatRole.system, "sys"⟩, ⟨ChatRole.user, "q"⟩] : List ChatMessage).get? i = some m ∧
      m.role = ChatRole.user ∧
      (∀ j m2, i < j →
        ([⟨ChatRole.system, "sys"⟩, ⟨ChatRole.user, "q"⟩] : List ChatMessage).get? j = some m2 →
        ¬ m2.role = ChatRole.user) ∧
      (spliceContext [⟨ChatRole.system, "sys"⟩, ⟨ChatRole.user, "q"⟩] "ctx").length
        = ([⟨ChatRole.system, "sys"⟩, ⟨ChatRole.user, "q"⟩] : List ChatMessage).length ∧
      (spliceContext [⟨ChatRole.system, "sys"⟩, ⟨ChatRole.user, "q"⟩] "ctx").get? i
        = some { role := m.role, content := m.content ++
            ("\n\n--- Context ---\n" ++ ("\n\n--- Context ---\n" ++ "ctx")) } ∧
      (∀ j, j ≠ i →
        (spliceContext [⟨ChatRole.system, "sys"⟩, ⟨ChatRole.user, "q"⟩] "ctx").get? j
          = ([⟨ChatRole.system, "sys"⟩, ⟨ChatRole.user, "q"⟩] : List ChatMessage).get? j) :=
  spliceContext_spec [⟨ChatRole.system, "sys"⟩, ⟨ChatRole.user, "q"⟩] "ctx"
    (by decide) ⟨⟨ChatRole.user, "q"⟩, by decide, rfl⟩

/-! ## Token masking helpers (`mask` / `unmask`)

```ts
private mask(input: string, key: string): string {
    return input.split('').map((char, i) =>
        (char.charCodeAt(0) ^ key.charCodeAt(i % key.length)).toString(16).padStart(2, '0')
    ).join('');
}

private unmask(masked: string, key: string): string {
    if (!key) { throw new Error('Mask secret not defined'); }
    const bytes = masked.match(/.{1,2}/g)!.map((h) => parseInt(h, 16));
    return String.fromCharCode(...bytes.map((b, i) => b ^ key.charCodeAt(i % key.length)));
}
```
Strings are modelled by their lists of UTF-16 code units (`List Nat`).
`masked.match(/.{1,2}/g)` is `null` for the empty string, so the non-null
assertion makes `unmask("")` throw — modelled as `none`. -/

/-- `parseInt` value of one hex digit (0 for a non-digit, which cannot occur
on `mask` output). -/
def hexDigitVal (c : Char) : Nat :=
  if 48 ≤ c.toNat ∧ c.toNat ≤ 57 then c.toNat - 48
  else if 97 ≤ c.toNat ∧ c.toNat ≤ 102 then c.toNat - 87
  else if 65 ≤ c.toNat ∧ c.toNat ≤ 70 then c.toNat - 55
  else 0

/-- `parseInt(h, 16)` of a 1–2 character chunk. -/
def hexChunkVal (chunk : List Char) : Nat :=
  chunk.foldl (fun acc c => 16 * acc + hexDigitVal c) 0

/-- `masked.match(/.{1,2}/g)`: split into chunks of two (a trailing odd
character forms a 1-character chunk). -/
def chunkPairs : List Char → List (List Char)
  | [] => []
  | [a] => [[a]]
  | a :: b :: rest => [a, b] :: chunkPairs rest

/-- `n.toString(16).padStart(2, '0')` as a character list. -/
def byteToHexChars (n : Nat) : List Char :=
  let ds := Nat.toDigits 16 n
  List.replicate (2 - ds.length) '0' ++ ds

/-- The `.map((char, i) => ...)` loop of `mask`, carrying the position. -/
def maskGo (key : List Nat) : Nat → List Nat → List (List Char)
  | _, [] => []
  | i, c :: rest =>
      byteToHexChars (c ^^^ key.getD (i % key.length) 0) :: maskGo key (i + 1) rest

/-- `mask(input, key)`. -/
def mask (input key : List Nat) : String :=
  String.mk (maskGo key 0 input).join

/-- The `bytes.map((b, i) => b ^ ...)` loop of `unmask`. -/
def unmaskGo (key : List Nat) : Nat → List (List Char) → List Nat
  | _, [] => []
  | i, ch :: rest =>
      (hexChunkVal ch ^^^ key.getD (i % key.length) 0) :: unmaskGo key (i + 1) rest

/-- `unmask(masked, key)`; `none` models a throw (empty key, or the
non-null assertion on `match` failing for an empty `masked`). -/
def unmask (masked : String) (key : List Nat) : Option (List Nat) :=
  if key.isEmpty then none
  else
    match chunkPairs masked.data with
    | [] => none
    | chunks => some (unmaskGo key 0 chunks)

set_option maxRecDepth 4096 in
theorem byteToHexChars_spec :
    ∀ n, n < 256 → (byteToHexChars n).length = 2 ∧
      hexChunkVal (byteToHexChars n) = n ∧
      ∀ c ∈ byteToHexChars n, c ∈ ("0123456789abcdef").data := by
  decide

theorem chunkPairs_join :
    ∀ chunks : List (List Char), (∀ c ∈ chunks, c.length = 2) →
      chunkPairs chunks.join = chunks := by
  intro chunks
  induction chunks with
  | nil => intro _; rfl
  | cons c rest ih =>
      intro h
      obtain ⟨a, b, hab⟩ := List.length_eq_two.mp (h c (List.mem_cons_self c rest))
      subst hab
      have : ([a, b] :: rest).join = a :: b :: rest.join := by simp
      rw [this]
      show [a, b] :: chunkPairs rest.join = [a, b] :: rest
      rw [ih (fun q hq => h q (List.mem_cons_of_mem _ hq))]

theorem maskGo_chunks_len (key : List Nat) :
    ∀ (input : List Nat) (i : Nat),
      (∀ j, j < input.length → input.getD j 0 ^^^ key.getD ((i + j) % key.length) 0 < 256) →
      ∀ c ∈ maskGo key i input, c.length = 2 := by
  intro input
  induction input with
  | nil => intro i _ c hc; cases hc
  | cons x rest ih =>
      intro i h c hc
      rcases List.mem_cons.mp hc with he | hm
      · subst he
        have h0 := h 0 (by simp)
        simp only [List.getD_cons_zero, Nat.add_zero] at h0
        exact (byteToHexChars_spec _ h0).1
      · refine ih (i + 1) (fun j hj => ?_) c hm
        have hj1 := h (j + 1) (by simpa using Nat.succ_lt_succ hj)
        simp only [List.getD_cons_succ] at hj1
        have harith : i + (j + 1) = i + 1 + j := by omega
        rw [harith] at hj1
        exact hj1

theorem unmaskGo_maskGo (key : List Nat) :
    ∀ (input : List Nat) (i : Nat),
      (∀ j, j < input.length → input.getD j 0 ^^^ key.getD ((i + j) % key.length) 0 < 256) →
      unmaskGo key i (maskGo key i input) = input := by
  intro input
  induction input with
  | nil => intro i _; rfl
  | cons x rest ih =>
      intro i h
      have h0 := h 0 (by simp)
      simp only [List.getD_cons_zero, Nat.add_zero] at h0
      show (hexChunkVal (byteToHexChars (x ^^^ key.getD (i % key.length) 0))
          ^^^ key.getD (i % key.length) 0) :: unmaskGo key (i + 1) (maskGo key (i + 1) rest)
        = x :: rest
      rw [(byteToHexChars_spec _ h0).2.1, Nat.xor_cancel_right]
      congr 1
      refine ih (i + 1) (fun j hj => ?_)
      have hj1 := h (j + 1) (by simpa using Nat.succ_lt_succ hj)
      simp only [List.getD_cons_succ] at hj1
      have harith : i + (j + 1) = i + 1 + j := by omega
      rw [harith] at hj1
      exact hj1

/-- C10 counterexample: for the empty input the round-trip fails — `mask`
returns `""`, and `unmask("")` throws because `"".match(/.{1,2}/g)` is
`null` and the non-null assertion dereferences it. -/
theorem mask_unmask_empty_input :
    mask [] [107] = "" ∧ unmask (mask [] [107]) [107] = none := by
  exact ⟨rfl, rfl⟩

/-- C10 amended: for every non-empty key and every NON-empty input whose
per-position XOR with the cyclically repeated key stays below 256 (any
ASCII input with an ASCII key), `unmask` inverts `mask`, and `mask` produces
exactly two lowercase-hex characters per input code unit. -/
theorem mask_unmask_roundtrip (input key : List Nat)
    (hkey : key ≠ []) (hinput : input ≠ [])
    (hlt : ∀ j, j < input.length →
      input.getD j 0 ^^^ key.getD (j % key.length) 0 < 256) :
    unmask (mask input key) key = some input ∧
    (mask input key).length = 2 * input.length ∧
    ∀ c ∈ (mask input key).data, c ∈ ("0123456789abcdef").data := by
  have hlt0 : ∀ j, j < input.length →
      input.getD j 0 ^^^ key.getD ((0 + j) % key.length) 0 < 256 := by
    intro j hj
    simpa using hlt j hj
  have hchunks : ∀ c ∈ maskGo key 0 input, c.length = 2 :=
    maskGo_chunks_len key input 0 hlt0
  have hdata : (mask input key).data = (maskGo key 0 input).join := rfl
  refine ⟨?_, ?_, ?_⟩
  · unfold unmask
    rw [show key.isEmpty = false from by
      cases key with
      | nil => exact absurd rfl hkey
      | cons a l => rfl]
    simp only [if_false, Bool.false_eq_true]
    rw [hdata, chunkPairs_join (maskGo key 0 input) hchunks]
    cases hin : input with
    | nil => exact absurd hin hinput
    | cons x rest =>
        show some (unmaskGo key 0 (maskGo key 0 (x :: rest))) = some (x :: rest)
        rw [unmaskGo_maskGo key (x :: rest) 0 (hin ▸ hlt0)]
  · show ((maskGo key 0 input).join).length = 2 * input.length
    have hlen : ∀ (l : List Nat) (i : Nat),
        (∀ c ∈ maskGo key i l, c.length = 2) →
        ((maskGo key i l).join).length = 2 * l.length := by
      intro l
      induction l with
      | nil => intro i _; rfl
      | cons x rest ih =>
          intro i hc
          show (byteToHexChars (x ^^^ key.getD (i % key.length) 0) ++
              (maskGo key (i + 1) rest).join).length = 2 * (rest.length + 1)
          rw [List.length_append,
            hc _ (List.mem_cons_self _ _),
            ih (i + 1) (fun c hm => hc c (List.mem_cons_of_mem _ hm))]
          omega
    exact hlen input 0 hchunks
  · intro c hc
    rw [hdata] at hc
    obtain ⟨chunk, hchunk, hcc⟩ := List.mem_join.mp hc
    have hmem : ∀ (l : List Nat) (i : Nat),
        (∀ j, j < l.length → l.getD j 0 ^^^ key.getD ((i + j) % key.length) 0 < 256) →
        ∀ ch ∈ maskGo key i l, ∀ d ∈ ch, d ∈ ("0123456789abcdef").data := by
      intro l
      induction l with
      | nil => intro i _ ch hch; cases hch
      | cons x rest ih =>
          intro i h ch hch
          rcases List.mem_cons.mp hch with he | hm
          · subst he
            have h0 := h 0 (by simp)
            simp only [List.getD_cons_zero, Nat.add_zero] at h0
            exact (byteToHexChars_spec _ h0).2.2
          · refine ih (i + 1) (fun j hj => ?_) ch hm
            have hj1 := h (j + 1) (by simpa using Nat.succ_lt_succ hj)
            simp only [List.getD_cons_succ] at hj1
            have harith : i + (j + 1) = i + 1 + j := by omega
            rw [harith] at hj1
            exact hj1
    exact hmem input 0 hlt0 chunk hchunk c hcc

/-- Witness for `mask_unmask_roundtrip`: the ASCII input "hi" with the
one-character key "k". -/
theorem mask_unmask_roundtrip_witness :
    unmask (mask [104, 105] [107]) [107] = some [104, 105] ∧
    (mask [104, 105] [107]).length = 2 * ([104, 105] : List Nat).length ∧
    ∀ c ∈ (mask [104, 105] [107]).data, c ∈ ("0123456789abcdef").data :=
  mask_unmask_roundtrip [104, 105] [107] (by decide) (by decide) (by decide)
